import Mathlib

/-!
Verification of the FIRDS data-access module (`firds.py`): a shallow
embedding of its functions and proofs of the specified properties.

The module downloads ESMA FIRDS file manifests (paginated search endpoint),
extracts zip archives, parses reference-data XML into (ISIN, LEI) pairs and
maintains a SQLite lookup table with `INSERT OR IGNORE` semantics.

Effects are made explicit: the HTTP endpoint is a function parameter, the
filesystem is a record threaded through, SQLite state is a list of rows in
insertion (rowid) order, and Python exceptions are `Except` errors.
-/

namespace Firds

/-- Python exceptions that the embedded code can raise. -/
inductive PyError where
  | indexError
  | typeError
  | httpError (status : Nat)
  deriving DecidableEq, Repr

/-- Python's `s.startswith(pre)` on the character lists of the strings. -/
def charsStartWith : List Char → List Char → Bool
  | _, [] => true
  | [], _ :: _ => false
  | c :: cs, p :: ps => c == p && charsStartWith cs ps

/-- Python `str.startswith` on strings. -/
def pyStartswith (s pre : String) : Bool :=
  charsStartWith s.data pre.data

/-- Python `str.endswith` on strings (used by `os.path.join`). -/
def pyEndswith (s suf : String) : Bool :=
  charsStartWith s.data.reverse suf.data.reverse

/-! ## The archive fetcher (`download_zipped_file`)

HTTP is again a function parameter; its response carries the status code
and the downloaded zip archive, already decoded into its entry list (the
bytes-to-archive decoding itself is not modelled).  The filesystem is a
record of existing directories and of files with their byte contents. -/

/-- One member of a zip archive: its stored name and its bytes. -/
structure ZipEntry where
  name : String
  contents : List Nat
  deriving DecidableEq, Repr

/-- An HTTP response for an archive download: the status code and the
body decoded as a zip archive (entry list in `namelist()` order). -/
structure HttpResponse where
  statusCode : Nat
  archive : List ZipEntry
  deriving DecidableEq, Repr

/-- Directories and files of the local filesystem. -/
structure FS where
  dirs : List String
  files : List (String × List Nat)
  deriving DecidableEq, Repr

/-- Model of `os.path.join(d, name)` (posix): an absolute `name` wins; a
trailing separator on `d` (or an empty `d`) is not doubled. -/
def osPathJoin (d name : String) : String :=
  if pyStartswith name "/" then name
  else if d = "" || pyEndswith d "/" then d ++ name
  else d ++ "/" ++ name

/-- Model of `if not os.path.exists(to_dir): os.makedirs(to_dir)`. -/
def mkdirIfAbsent (fs : FS) (d : String) : FS :=
  if fs.dirs.contains d then fs else { fs with dirs := fs.dirs ++ [d] }

/-- Write (or overwrite) one file. -/
def writeFile (fs : FS) (p : String) (bs : List Nat) : FS :=
  { fs with files := fs.files.filter (fun q => q.1 ≠ p) ++ [(p, bs)] }

/-- Contents of the file at `p`, if it exists. -/
def readFile (fs : FS) (p : String) : Option (List Nat) :=
  (fs.files.find? (fun q => q.1 = p)).map (·.2)

/-- Model of `zipfile.extractall(path=to_dir)`: write every member of the archive
under the destination directory. -/
def extractall (fs : FS) (d : String) : List ZipEntry → FS
  | [] => fs
  | e :: rest => extractall (writeFile fs (osPathJoin d e.name) e.contents) d rest

/-- What `download_zipped_file` returns (or raises). -/
inductive DlOutcome where
  | ok (path : String)
  /-- The error raised by `response.raise_for_status()` on an error status. -/
  | httpError (status : Nat)
  /-- The error raised by `zipfile.namelist()[0]` on an archive with no members. -/
  | indexError
  deriving DecidableEq, Repr

/-- Model of `download_zipped_file(url, to_dir)`: create the directory if absent,
download, `raise_for_status()` (an error status, `400 <= code < 600`,
raises before the zip is even opened), then extract everything and return
`os.path.join(to_dir, namelist()[0])`.  The filesystem after the call is
returned alongside the outcome. -/
def download_zipped_file (fetch : String → HttpResponse) (url : String)
    (to_dir : String) (fs : FS) : DlOutcome × FS :=
  let fs1 := mkdirIfAbsent fs to_dir
  let response := fetch url
  if 400 ≤ response.statusCode ∧ response.statusCode < 600 then
    (.httpError response.statusCode, fs1)
  else
    match response.archive with
    | [] => (.indexError, fs1)
    | e0 :: _ => (.ok (osPathJoin to_dir e0.name), extractall fs1 to_dir response.archive)

/-! ## The SQLite lookup table

The schema is `CREATE TABLE (isin TEXT PRIMARY KEY, lei TEXT NOT NULL)`.
A row's `isin` may be SQL `NULL` (SQLite permits `NULL` in a non-`INTEGER`
`PRIMARY KEY` column, and distinct `NULL`s never conflict), hence
`Option String`; a stored `lei` is always a string because `NOT NULL` rows
are the only ones that survive insertion. Rows are kept in insertion
(rowid) order, which is the order an unordered `SELECT` scans them in. -/

/-- The rows of one lookup table, in rowid (insertion) order. -/
abbrev Table := List (Option String × String)

/-- One `INSERT OR IGNORE INTO t (isin, lei) VALUES (?, ?)` statement:
a row violating a constraint (duplicate `isin` primary key, or `NULL`
`lei` against `NOT NULL`) is silently skipped; otherwise it is appended.
A `NULL` `isin` never conflicts with anything (SQLite `NULL` primary-key
quirk). -/
def insertOrIgnore (t : Table) (row : Option String × Option String) : Table :=
  match row with
  | (_, none) => t
  | (some i, some l) => if t.any (fun r => r.1 = some i) then t else t ++ [(some i, l)]
  | (none, some l) => t ++ [(none, l)]

/-- Model of `cursor.executemany` over the insert statement: the rows are
inserted one after another, in order. -/
def executemany (t : Table) (args : List (Option String × Option String)) : Table :=
  args.foldl insertOrIgnore t

/-- Number of stored rows whose `isin` equals the string `i`. -/
def countKey (t : Table) (i : String) : Nat :=
  (t.filter (fun r => r.1 = some i)).length

/-- Model of the `SELECT lei FROM t WHERE isin=?` query with `cursor.fetchone()`:
the first row (in scan order) whose `isin` matches, if any. A `NULL`
`isin` never matches an equality comparison. -/
def fetchone (t : Table) (i : String) : Option String :=
  (t.find? (fun r => r.1 = some i)).map (·.2)

/-! ## Reference-document parsing (`append_to_table`'s XML loop)

One `RefData` XML element is abstracted to the two pieces of it the code
touches.  For each piece, the outer `Option` records whether the element is
present at all (`xpath(...)` returning an empty list means absent, and
indexing `[0]` into it raises `IndexError`); the inner `Option` is the
element's `.text`, which is Python `None` for an empty element. -/

/-- One `Document:RefData` record, restricted to the fields the code reads. -/
structure RefData where
  /-- The `FinInstrmGnlAttrbts/Id` element: absent, or present with text. -/
  idElem : Option (Option String)
  /-- The `Issr` element: absent, or present with text. -/
  issrElem : Option (Option String)
  deriving DecidableEq, Repr

/-- Extraction of `(isin, lei)` from one record:
`ref_data.xpath('...Id', ...)[0].text` and `ref_data.xpath('...Issr', ...)[0].text`.
An absent element makes `[0]` raise `IndexError`. -/
def parseRecord (r : RefData) : Except PyError (Option String × Option String) :=
  match r.idElem with
  | none => .error .indexError
  | some isin =>
    match r.issrElem with
    | none => .error .indexError
    | some lei => .ok (isin, lei)

/-- Model of `append_to_table(table, xml_file)`, acting on the current rows of the
named table (`CREATE TABLE IF NOT EXISTS` means a table not yet created
contributes `[]`). The `for` loop builds `args` by parsing every record —
the first record with a missing required element raises out of the whole
call, before any insertion. Only if all records parse does
`executemany` run, followed by `conn.commit()`. -/
def append_to_table (t : Table) (doc : List RefData) : Except PyError Table :=
  match doc.mapM parseRecord with
  | .error e => .error e
  | .ok args => .ok (executemany t args)

/-- The committed table another connection sees after the call: on any
exception the `commit` is never reached, so the uncommitted transaction is
rolled back and the pre-call rows remain. -/
def tableAfterAppend (t : Table) (doc : List RefData) : Table :=
  match append_to_table t doc with
  | .ok t' => t'
  | .error _ => t

/-! ## The file-manifest pipeline (`get_file_urls` and friends)

The search endpoint is a function parameter `request`: given the resolved
`from`/`to` dates (modelled as day numbers), a `start` offset and a `rows`
page size, it yields one response page.  `get_file_urls` also returns the
trace of requests it issued, so that theorems can speak about which offsets
and which date window were queried. -/

/-- One result document of a search-response page, restricted to the two
fields the code reads (`str[@name="file_name"]` and
`str[@name="download_link"]`). -/
structure Entry where
  file_name : String
  download_link : String
  deriving DecidableEq, Repr

/-- One search-response page: the `numFound` attribute of `root[1]` and
the result documents under it. -/
structure Response where
  numFound : Nat
  entries : List Entry
  deriving DecidableEq, Repr

/-- One request issued to the search endpoint (`_request_file_urls`'s
arguments): the resolved date window and the paging parameters. -/
structure Req where
  fromDate : Int
  toDate : Int
  start : Nat
  rows : Nat
  deriving DecidableEq, Repr

/-- The constant `FNAME_START` (the string `FULINS_` plus one type letter). -/
def FNAME_START (f : Char) : String :=
  "FULINS_" ++ f.toString

/-- Model of `_parse_file_urls(root, ftype)`: keep, in page order, the
`download_link` of each entry whose `file_name` starts with
`FULINS_` followed by some letter of `ftype`; an empty `ftype` keeps
everything.  (Python iterates the characters of the `ftype` string,
so `ftype` is a `List Char` here.) -/
def parse_file_urls (entries : List Entry) (ftype : List Char) : List String :=
  match entries with
  | [] => []
  | e :: rest =>
    if ftype.isEmpty || ftype.any (fun f => pyStartswith e.file_name (FNAME_START f))
    then e.download_link :: parse_file_urls rest ftype
    else parse_file_urls rest ftype

/-- The date-defaulting at the top of `get_file_urls`
(`datetime.today()` is the parameter `today`; `timedelta(weeks=1)` is 7
days):

```
if from_date is None:
    to_date = datetime.today()
    from_date = to_date - timedelta(weeks=1)
elif to_date is None:
    to_date = from_date
``` -/
def resolveDates (today : Int) (from_date to_date : Option Int) : Int × Int :=
  match from_date with
  | none => (today - 7, today)
  | some f =>
    match to_date with
    | none => (f, f)
    | some t => (f, t)

/-- The `while num_results > (start + rows)` loop of `get_file_urls`:
advance `start` by `rows`, re-request, and append the page's parsed URLs.
`urls` and `trace` accumulate the URLs gathered and the requests issued so
far.  The `0 < rows` conjunct only rules out the degenerate page size 0
(the code always uses `rows = 100`), so that the loop is total. -/
def fetchLoop (request : Int → Int → Nat → Nat → Response) (ftype : List Char)
    (fd td : Int) (num rows start : Nat) (urls : List String) (trace : List Req) :
    List String × List Req :=
  if h : start + rows < num ∧ 0 < rows then
    let start' := start + rows
    let root := request fd td start' rows
    fetchLoop request ftype fd td num rows start'
      (urls ++ parse_file_urls root.entries ftype) (trace ++ [⟨fd, td, start', rows⟩])
  else (urls, trace)
termination_by num - start
decreasing_by omega

/-- Model of `get_file_urls(from_date, to_date, ftype)`: resolve the date window,
request the first page at `start = 0` with `rows = 100`, read `numFound`,
then loop over the remaining pages.  Returns the accumulated URLs together
with the trace of issued requests. -/
def get_file_urls (request : Int → Int → Nat → Nat → Response) (today : Int)
    (from_date to_date : Option Int) (ftype : List Char) : List String × List Req :=
  let start : Nat := 0
  let rows : Nat := 100
  let (fd, td) := resolveDates today from_date to_date
  let root := request fd td start rows
  let num := root.numFound
  let urls := parse_file_urls root.entries ftype
  fetchLoop request ftype fd td num rows start urls [⟨fd, td, start, rows⟩]

/-- Model of `lookup_leis(isins, table)`: for each ISIN in order, `SELECT` then
`results.append(cursor.fetchone()[0])`.  When no row matches, `fetchone()`
is Python `None` and `None[0]` raises `TypeError`, aborting the whole
call. -/
def lookup_leis (t : Table) (isins : List String) : Except PyError (List String) :=
  isins.mapM (fun i =>
    match fetchone t i with
    | none => .error .typeError
    | some lei => .ok lei)

/-! ## Supporting lemmas -/

/-- A failing `parseRecord` only ever raises `IndexError`. -/
lemma parseRecord_error_eq {r : RefData} {e : PyError}
    (h : parseRecord r = .error e) : e = PyError.indexError := by
  unfold parseRecord at h
  cases h1 : r.idElem <;> rw [h1] at h
  · cases h; rfl
  · cases h2 : r.issrElem <;> rw [h2] at h
    · cases h; rfl
    · cases h

/-- Parsing a whole document either succeeds on every record or raises
`IndexError`. -/
lemma mapM_parseRecord_dichotomy (doc : List RefData) :
    (∃ args, doc.mapM parseRecord = Except.ok args) ∨
    doc.mapM parseRecord = Except.error PyError.indexError := by
  induction doc with
  | nil => exact Or.inl ⟨[], rfl⟩
  | cons a rest ih =>
    cases ha : parseRecord a with
    | error e =>
      right
      rw [List.mapM_cons, ha, parseRecord_error_eq ha]
      rfl
    | ok v =>
      rcases ih with ⟨args, hargs⟩ | herr
      · exact Or.inl ⟨v :: args, by rw [List.mapM_cons, ha, hargs]; rfl⟩
      · right; rw [List.mapM_cons, ha, herr]; rfl

/-- If parsing the whole document succeeds, every record parsed. -/
lemma mapM_parseRecord_ok_of_mem {doc : List RefData} {args}
    (h : doc.mapM parseRecord = Except.ok args) :
    ∀ r ∈ doc, ∃ v, parseRecord r = Except.ok v := by
  induction doc generalizing args with
  | nil => intro r hr; cases hr
  | cons a rest ih =>
    intro r hr
    rw [List.mapM_cons] at h
    cases ha : parseRecord a with
    | error e => rw [ha] at h; cases h
    | ok v =>
      rw [ha] at h
      cases hrest : rest.mapM parseRecord with
      | error e => rw [hrest] at h; cases h
      | ok vs =>
        rcases List.mem_cons.mp hr with rfl | hr'
        · exact ⟨v, ha⟩
        · exact ih hrest r hr'

/-- Unfolding `append_to_table` on a parse failure. -/
lemma append_to_table_of_parse_error {t : Table} {doc : List RefData} {e : PyError}
    (h : doc.mapM parseRecord = Except.error e) :
    append_to_table t doc = .error e := by
  unfold append_to_table
  rw [h]

/-- Unfolding `append_to_table` on a parse success. -/
lemma append_to_table_of_parse_ok {t : Table} {doc : List RefData} {args}
    (h : doc.mapM parseRecord = Except.ok args) :
    append_to_table t doc = .ok (executemany t args) := by
  unfold append_to_table
  rw [h]

/-- Unfolding `tableAfterAppend` through the result of the call. -/
lemma tableAfterAppend_eq (t : Table) (doc : List RefData) :
    tableAfterAppend t doc
      = match append_to_table t doc with
        | .ok t' => t'
        | .error _ => t := rfl

/-! ## C1: `lookup_leis` on an absent identifier -/

/-- C1: the claim says `lookup_leis` returns a same-length, same-order list
with an explicit not-found marker for absent ISINs and never fails on
absence.  The code does `results.append(cursor.fetchone()[0])`, and for an
absent ISIN `fetchone()` is Python `None`, so `None[0]` raises `TypeError`:
the whole call fails, contradicting the function's own docstring ("Where an
LEI is not found, None appears at the relevant index of the list").  On a
table holding only ISIN "DE0001", looking up `["DE0001", "US9999"]` raises
instead of returning a two-element list, while the all-present lookup
`["DE0001"]` succeeds. -/
theorem lookup_leis_raises_on_absent_isin :
    lookup_leis [(some "DE0001", "LEI-A")] ["DE0001", "US9999"]
      = .error PyError.typeError ∧
    lookup_leis [(some "DE0001", "LEI-A")] ["DE0001"] = .ok ["LEI-A"] := by
  constructor <;> rfl

/-! ## C4: a record with a missing required field fails the whole file -/

/-- C4: if any single record of the document lacks its `Id` element or its
`Issr` element, `append_to_table` raises (`IndexError` out of the parse
loop) for the entire file, and the committed table is left exactly as it
was — no record of the file, not even the well-formed ones, is inserted. -/
theorem append_to_table_fails_whole_file (t : Table) (doc : List RefData)
    (r : RefData) (hr : r ∈ doc) (hbad : r.idElem = none ∨ r.issrElem = none) :
    append_to_table t doc = .error PyError.indexError ∧
    tableAfterAppend t doc = t := by
  have hrerr : parseRecord r = .error PyError.indexError := by
    rcases hbad with h | h
    · simp [parseRecord, h]
    · cases hid : r.idElem <;> simp [parseRecord, hid, h]
  have hmap : doc.mapM parseRecord = .error PyError.indexError := by
    rcases mapM_parseRecord_dichotomy doc with ⟨args, hok⟩ | herr
    · obtain ⟨v, hv⟩ := mapM_parseRecord_ok_of_mem hok r hr
      rw [hv] at hrerr
      cases hrerr
    · exact herr
  refine ⟨append_to_table_of_parse_error hmap, ?_⟩
  rw [tableAfterAppend_eq, append_to_table_of_parse_error hmap]

/-- Witness for C4: a two-record document whose first record has an `Id`
element but no `Issr` element aborts the whole file, leaving the table's
one pre-existing row untouched (the second, well-formed record is not
inserted either). -/
theorem append_to_table_fails_whole_file_witness :
    (⟨some (some "DE0001"), none⟩ : RefData)
        ∈ [(⟨some (some "DE0001"), none⟩ : RefData),
           ⟨some (some "FR0002"), some (some "LEI-B")⟩] ∧
    append_to_table [(some "AT0000", "LEI-Z")]
        [⟨some (some "DE0001"), none⟩, ⟨some (some "FR0002"), some (some "LEI-B")⟩]
      = .error PyError.indexError ∧
    tableAfterAppend [(some "AT0000", "LEI-Z")]
        [⟨some (some "DE0001"), none⟩, ⟨some (some "FR0002"), some (some "LEI-B")⟩]
      = [(some "AT0000", "LEI-Z")] := by
  have h := append_to_table_fails_whole_file [(some "AT0000", "LEI-Z")]
    [⟨some (some "DE0001"), none⟩, ⟨some (some "FR0002"), some (some "LEI-B")⟩]
    ⟨some (some "DE0001"), none⟩ (by decide) (Or.inr rfl)
  exact ⟨by decide, h.1, h.2⟩

/-! ## C5: `append_to_table` is atomic per call -/

/-- C5: for every starting table and every batch, either the call fails and
the committed table is exactly the pre-call table (no record of the batch
becomes visible — the `commit` is never reached), or parsing succeeded on
the whole batch and the committed table is the pre-call table with the
entire batch applied in order by `executemany`. -/
theorem append_to_table_atomic (t : Table) (doc : List RefData) :
    (∃ e, append_to_table t doc = .error e ∧ tableAfterAppend t doc = t) ∨
    (∃ args, doc.mapM parseRecord = Except.ok args ∧
      append_to_table t doc = .ok (executemany t args) ∧
      tableAfterAppend t doc = executemany t args) := by
  cases h : doc.mapM parseRecord with
  | error e =>
    left
    exact ⟨e, append_to_table_of_parse_error h,
      by rw [tableAfterAppend_eq, append_to_table_of_parse_error h]⟩
  | ok args =>
    right
    exact ⟨args, rfl, append_to_table_of_parse_ok h,
      by rw [tableAfterAppend_eq, append_to_table_of_parse_ok h]⟩

/-! ## C2: insertion is idempotent and first-write-wins -/

/-- A table with no row keyed `i` fails the duplicate-key probe. -/
lemma any_key_eq_false_of_countKey_zero {t : Table} {i : String}
    (h : countKey t i = 0) :
    t.any (fun r => r.1 = some i) = false := by
  unfold countKey at h
  rw [List.length_eq_zero, List.filter_eq_nil_iff] at h
  rw [Bool.eq_false_iff]
  intro hany
  rw [List.any_eq_true] at hany
  obtain ⟨r, hr, hp⟩ := hany
  exact h r hr hp

/-- A table with no row keyed `i` has no matching row to fetch. -/
lemma find_key_eq_none_of_countKey_zero {t : Table} {i : String}
    (h : countKey t i = 0) :
    t.find? (fun r => r.1 = some i) = none := by
  unfold countKey at h
  rw [List.length_eq_zero, List.filter_eq_nil_iff] at h
  exact List.find?_eq_none.mpr h

/-- Inserting into a table that already holds the key leaves it unchanged. -/
lemma insertOrIgnore_of_key_present {t : Table} {i : String} (l : String)
    (h : t.any (fun r => r.1 = some i) = true) :
    insertOrIgnore t (some i, some l) = t := by
  simp [insertOrIgnore, h]

/-- Inserting a fresh key appends its row at the end. -/
lemma insertOrIgnore_of_key_absent {t : Table} {i : String} (l : String)
    (h : t.any (fun r => r.1 = some i) = false) :
    insertOrIgnore t (some i, some l) = t ++ [(some i, l)] := by
  simp [insertOrIgnore, h]

/-- C2: starting from a table with no row for ISIN `i`, appending `(i, l)`
and then `(i, l')` (the same pair again when `l' = l`, or a conflicting
later record otherwise) leaves the table exactly as after the first
append: the duplicate is silently discarded, exactly one row keyed `i` is
stored, its LEI is still the first-written `l`, and the store-level call
`append_to_table` on the duplicate record reports success rather than an
error. -/
theorem insertOrIgnore_idempotent_first_write_wins (t : Table) (i l l' : String)
    (hkey : countKey t i = 0) :
    insertOrIgnore (insertOrIgnore t (some i, some l)) (some i, some l)
      = insertOrIgnore t (some i, some l) ∧
    insertOrIgnore (insertOrIgnore t (some i, some l)) (some i, some l')
      = insertOrIgnore t (some i, some l) ∧
    countKey (insertOrIgnore (insertOrIgnore t (some i, some l)) (some i, some l')) i = 1 ∧
    fetchone (insertOrIgnore (insertOrIgnore t (some i, some l)) (some i, some l')) i
      = some l ∧
    append_to_table (insertOrIgnore t (some i, some l))
        [⟨some (some i), some (some l')⟩]
      = .ok (insertOrIgnore t (some i, some l)) := by
  have habs : t.any (fun r => r.1 = some i) = false :=
    any_key_eq_false_of_countKey_zero hkey
  have h1 : insertOrIgnore t (some i, some l) = t ++ [(some i, l)] :=
    insertOrIgnore_of_key_absent l habs
  have hpres : (t ++ [(some i, l)]).any (fun r => r.1 = some i) = true := by
    rw [List.any_append]
    simp
  have hfww : ∀ m : String,
      insertOrIgnore (insertOrIgnore t (some i, some l)) (some i, some m)
        = insertOrIgnore t (some i, some l) := by
    intro m
    rw [h1, insertOrIgnore_of_key_present m hpres]
  have hfilter : t.filter (fun r => r.1 = some i) = [] := by
    have := hkey
    unfold countKey at this
    rwa [List.length_eq_zero] at this
  refine ⟨hfww l, hfww l', ?_, ?_, ?_⟩
  · rw [hfww l', h1]
    unfold countKey
    rw [List.filter_append, hfilter]
    simp
  · rw [hfww l', h1]
    unfold fetchone
    rw [List.find?_append, find_key_eq_none_of_countKey_zero hkey]
    simp
  · have hparse : ([⟨some (some i), some (some l')⟩] : List RefData).mapM parseRecord
        = Except.ok [(some i, some l')] := rfl
    rw [append_to_table_of_parse_ok hparse]
    have hexec : executemany (insertOrIgnore t (some i, some l)) [(some i, some l')]
        = insertOrIgnore (insertOrIgnore t (some i, some l)) (some i, some l') := rfl
    rw [hexec, hfww l']

/-- Witness for C2: from an empty table, appending `(DE0001, LEI-A)` twice
leaves exactly the one row `(DE0001, LEI-A)`; a later append of
`(DE0001, LEI-B)` changes nothing, the stored LEI is still `LEI-A`, and
no error is raised. -/
theorem insertOrIgnore_idempotent_first_write_wins_witness :
    countKey ([] : Table) "DE0001" = 0 ∧
    insertOrIgnore (insertOrIgnore [] (some "DE0001", some "LEI-A"))
        (some "DE0001", some "LEI-A")
      = insertOrIgnore [] (some "DE0001", some "LEI-A") ∧
    insertOrIgnore (insertOrIgnore [] (some "DE0001", some "LEI-A"))
        (some "DE0001", some "LEI-B")
      = insertOrIgnore [] (some "DE0001", some "LEI-A") ∧
    countKey (insertOrIgnore (insertOrIgnore [] (some "DE0001", some "LEI-A"))
        (some "DE0001", some "LEI-B")) "DE0001" = 1 ∧
    fetchone (insertOrIgnore (insertOrIgnore [] (some "DE0001", some "LEI-A"))
        (some "DE0001", some "LEI-B")) "DE0001" = some "LEI-A" ∧
    append_to_table (insertOrIgnore [] (some "DE0001", some "LEI-A"))
        [⟨some (some "DE0001"), some (some "LEI-B")⟩]
      = .ok (insertOrIgnore [] (some "DE0001", some "LEI-A")) :=
  ⟨rfl, insertOrIgnore_idempotent_first_write_wins [] "DE0001" "LEI-A" "LEI-B" rfl⟩

/-! ## C6: the manifest type filter -/

/-- C6: `_parse_file_urls` keeps an entry exactly when the filter is empty
or the entry's file name begins with `FULINS_` followed by a type letter
present in the filter; kept entries' URLs appear in page order, dropped
entries vanish silently.  In particular, on the page
`[("FULINS_B_1", u1), ("FULINS_E_2", u2)]` the filter `{B}` returns
`[u1]` and the empty filter returns `[u1, u2]`. -/
theorem parse_file_urls_keeps_iff (entries : List Entry) (ftype : List Char) :
    parse_file_urls entries ftype
      = (entries.filter (fun e =>
          decide (ftype = [] ∨
            ∃ f ∈ ftype, pyStartswith e.file_name (FNAME_START f) = true))).map
          (fun e => e.download_link) ∧
    parse_file_urls [⟨"FULINS_B_1", "u1"⟩, ⟨"FULINS_E_2", "u2"⟩] ['B'] = ["u1"] ∧
    parse_file_urls [⟨"FULINS_B_1", "u1"⟩, ⟨"FULINS_E_2", "u2"⟩] [] = ["u1", "u2"] := by
  refine ⟨?_, by decide, by decide⟩
  induction entries with
  | nil => rfl
  | cons e rest ih =>
    have hcond : (ftype.isEmpty
          || ftype.any (fun f => pyStartswith e.file_name (FNAME_START f)))
        = decide (ftype = [] ∨
            ∃ f ∈ ftype, pyStartswith e.file_name (FNAME_START f) = true) := by
      by_cases hP : ftype = [] ∨ ∃ f ∈ ftype, pyStartswith e.file_name (FNAME_START f) = true
      · rw [decide_eq_true hP]
        rcases hP with h | h
        · simp [h]
        · rw [List.any_eq_true.mpr h]
          simp
      · rw [decide_eq_false hP]
        obtain ⟨h1, h2⟩ := not_or.mp hP
        have e1 : ftype.isEmpty = false := by
          rw [Bool.eq_false_iff]
          intro hh
          exact h1 (List.isEmpty_iff.mp hh)
        have e2 : ftype.any (fun f => pyStartswith e.file_name (FNAME_START f)) = false := by
          rw [Bool.eq_false_iff]
          intro hh
          exact h2 (List.any_eq_true.mp hh)
        rw [e1, e2]
        rfl
    show (if (ftype.isEmpty
          || ftype.any (fun f => pyStartswith e.file_name (FNAME_START f))) = true
        then e.download_link :: parse_file_urls rest ftype
        else parse_file_urls rest ftype) = _
    rw [List.filter_cons, hcond]
    cases hd : decide (ftype = [] ∨
        ∃ f ∈ ftype, pyStartswith e.file_name (FNAME_START f) = true) with
    | false => simp [ih]
    | true => simp [ih]

/-! ## The pagination loop: request-trace lemmas -/

/-- The loop only ever appends to the request trace it is handed. -/
lemma fetchLoop_trace_append (request : Int → Int → Nat → Nat → Response)
    (ftype : List Char) (fd td : Int) :
    ∀ (fuel num rows start : Nat) (urls : List String) (trace : List Req),
    num - start ≤ fuel →
    ∃ extra, (fetchLoop request ftype fd td num rows start urls trace).2 = trace ++ extra := by
  intro fuel
  induction fuel with
  | zero =>
    intro num rows start urls trace hle
    rw [fetchLoop]
    split
    · next h => omega
    · exact ⟨[], by simp⟩
  | succ n ih =>
    intro num rows start urls trace hle
    rw [fetchLoop]
    split
    · next h =>
      obtain ⟨extra, hextra⟩ := ih num rows (start + rows)
        (urls ++ parse_file_urls (request fd td (start + rows) rows).entries ftype)
        (trace ++ [⟨fd, td, start + rows, rows⟩]) (by omega)
      exact ⟨⟨fd, td, start + rows, rows⟩ :: extra, by rw [hextra]; simp⟩
    · exact ⟨[], by simp⟩

/-- With an empty type filter, a page's URLs are kept wholesale, in order. -/
lemma parse_file_urls_empty_filter (es : List Entry) :
    parse_file_urls es [] = es.map (fun e => e.download_link) := by
  induction es with
  | nil => rfl
  | cons e rest ih =>
    show (if (List.isEmpty [] || List.any [] fun f => pyStartswith e.file_name (FNAME_START f))
          = true
        then e.download_link :: parse_file_urls rest []
        else parse_file_urls rest []) = _
    rw [ih]
    rfl

/-- Full characterization of the pagination loop at the code's page size
100: starting at `start`, it issues exactly the requests at offsets
`start + 100, start + 200, …` strictly below `num`, and appends the pages'
parsed URLs in that order. -/
lemma fetchLoop_spec (request : Int → Int → Nat → Nat → Response)
    (ftype : List Char) (fd td : Int) :
    ∀ (fuel num start : Nat) (urls : List String) (trace : List Req),
    num - start ≤ fuel →
    fetchLoop request ftype fd td num 100 start urls trace
      = (urls ++ ((List.range' (start + 100) ((num - start - 1) / 100) 100).map
            (fun s => parse_file_urls (request fd td s 100).entries ftype)).flatten,
         trace ++ (List.range' (start + 100) ((num - start - 1) / 100) 100).map
            (fun s => (⟨fd, td, s, 100⟩ : Req))) := by
  intro fuel
  induction fuel with
  | zero =>
    intro num start urls trace hle
    rw [fetchLoop]
    split
    · next h => omega
    · next h =>
      have hc : (num - start - 1) / 100 = 0 := by omega
      rw [hc]
      simp [List.range']
  | succ n ih =>
    intro num start urls trace hle
    rw [fetchLoop]
    split
    · next h =>
      show fetchLoop request ftype fd td num 100 (start + 100)
          (urls ++ parse_file_urls (request fd td (start + 100) 100).entries ftype)
          (trace ++ [⟨fd, td, start + 100, 100⟩]) = _
      rw [ih num (start + 100) _ _ (by omega)]
      have hk : (num - start - 1) / 100 = (num - (start + 100) - 1) / 100 + 1 := by omega
      rw [hk, List.range'_succ]
      simp [List.append_assoc]
    · next h =>
      have hc : (num - start - 1) / 100 = 0 := by omega
      rw [hc]
      simp [List.range']

/-- With an empty filter and an endpoint whose page at offset `s` carries
`min 100 (num - s)` entries, the loop gathers exactly the remaining
`num - min num (start + 100)` URLs. -/
lemma fetchLoop_len (request : Int → Int → Nat → Nat → Response) (fd td : Int) :
    ∀ (fuel num start : Nat) (urls : List String) (trace : List Req),
    num - start ≤ fuel →
    (∀ s, ((request fd td s 100).entries).length = min 100 (num - s)) →
    ((fetchLoop request [] fd td num 100 start urls trace).1).length
      = urls.length + (num - min num (start + 100)) := by
  intro fuel
  induction fuel with
  | zero =>
    intro num start urls trace hle hlen
    rw [fetchLoop]
    split
    · next h => omega
    · next h =>
      show urls.length = urls.length + (num - min num (start + 100))
      have : min num (start + 100) = num := by omega
      rw [this]
      omega
  | succ n ih =>
    intro num start urls trace hle hlen
    rw [fetchLoop]
    split
    · next h =>
      show ((fetchLoop request [] fd td num 100 (start + 100)
          (urls ++ parse_file_urls (request fd td (start + 100) 100).entries [])
          (trace ++ [⟨fd, td, start + 100, 100⟩])).1).length = _
      rw [ih num (start + 100) _ _ (by omega) hlen]
      rw [List.length_append, parse_file_urls_empty_filter, List.length_map, hlen]
      omega
    · next h =>
      show urls.length = urls.length + (num - min num (start + 100))
      have : min num (start + 100) = num := by omega
      rw [this]
      omega

/-! ## C3: exhaustive pagination -/

/-- C3: against an endpoint reporting total `N` whose page at offset `s`
holds `min 100 (N - s)` entries, `get_file_urls` (page size 100) issues
its requests at exactly the offsets `0, 100, 200, …` below `N` (one
request when `N = 0`), i.e. it stops exactly when `offset + 100 ≥ N`; with
an empty filter the result is the concatenation of the pages' URL lists in
page order and has exactly `N` entries.  For `N = 250` the offsets are
exactly `0, 100, 200` — three requests. -/
theorem get_file_urls_pagination (request : Int → Int → Nat → Nat → Response)
    (today f tt : Int) (N : Nat)
    (hN : (request f tt 0 100).numFound = N)
    (hlen : ∀ s, ((request f tt s 100).entries).length = min 100 (N - s)) :
    (get_file_urls request today (some f) (some tt) []).2.map Req.start
        = List.range' 0 ((N - 1) / 100 + 1) 100 ∧
    (get_file_urls request today (some f) (some tt) []).1
        = ((List.range' 0 ((N - 1) / 100 + 1) 100).map
            (fun s => parse_file_urls (request f tt s 100).entries [])).flatten ∧
    (get_file_urls request today (some f) (some tt) []).1.length = N ∧
    (N = 250 →
      (get_file_urls request today (some f) (some tt) []).2.map Req.start
        = [0, 100, 200]) := by
  have hout : get_file_urls request today (some f) (some tt) []
      = fetchLoop request [] f tt N 100 0
          (parse_file_urls (request f tt 0 100).entries []) [⟨f, tt, 0, 100⟩] := by
    show fetchLoop request [] f tt ((request f tt 0 100).numFound) 100 0
        (parse_file_urls (request f tt 0 100).entries []) [⟨f, tt, 0, 100⟩] = _
    rw [hN]
  have hzero : N - 0 - 1 = N - 1 := by omega
  have hspec := fetchLoop_spec request [] f tt N N 0
    (parse_file_urls (request f tt 0 100).entries []) [⟨f, tt, 0, 100⟩] (le_refl N)
  rw [hzero] at hspec
  have hcomp : (Req.start ∘ fun s => (⟨f, tt, s, 100⟩ : Req)) = id := rfl
  have h1 : (get_file_urls request today (some f) (some tt) []).2.map Req.start
      = List.range' 0 ((N - 1) / 100 + 1) 100 := by
    rw [hout, hspec]
    rw [List.range'_succ, List.singleton_append, List.map_cons, List.map_map, hcomp,
      List.map_id]
  refine ⟨h1, ?_, ?_, ?_⟩
  · rw [hout, hspec]
    rw [List.range'_succ]
    simp
  · have hl := fetchLoop_len request f tt N N 0
      (parse_file_urls (request f tt 0 100).entries []) [⟨f, tt, 0, 100⟩] (le_refl N) hlen
    rw [hout, hl, parse_file_urls_empty_filter, List.length_map, hlen]
    omega
  · intro h250
    rw [h1, h250]
    decide

/-- A simulated endpoint reporting total 250, serving
`min 100 (250 - s)` entries at offset `s`. -/
def sampleEndpoint : Int → Int → Nat → Nat → Response :=
  fun _ _ s _ => ⟨250, List.replicate (min 100 (250 - s)) ⟨"FULINS_B_x", "u"⟩⟩

/-- Witness for C3: against the simulated total-250 endpoint, the merged
result has exactly 250 entries and exactly three requests were made, at
offsets 0, 100, 200. -/
theorem get_file_urls_pagination_witness :
    (get_file_urls sampleEndpoint 0 (some 1) (some 2) []).1.length = 250 ∧
    (get_file_urls sampleEndpoint 0 (some 1) (some 2) []).2.map Req.start
      = [0, 100, 200] := by
  have h := get_file_urls_pagination sampleEndpoint 0 1 2 250 rfl
    (fun s => by simp [sampleEndpoint])
  exact ⟨h.2.2.1, h.2.2.2 rfl⟩

/-! ## C9: default date window -/

/-- C9: with no dates supplied, the window is the trailing 7 days ending
today (`from = today - one week`, `to = today`); with only `from`
supplied, the window is that single day (`to = from`).  Moreover every
`get_file_urls` run opens with a request carrying exactly that resolved
window at offset 0 with page size 100. -/
theorem get_file_urls_default_window (request : Int → Int → Nat → Nat → Response)
    (today f : Int) (ftype : List Char) :
    resolveDates today none none = (today - 7, today) ∧
    resolveDates today (some f) none = (f, f) ∧
    (∃ rest, (get_file_urls request today none none ftype).2
        = ⟨today - 7, today, 0, 100⟩ :: rest) ∧
    (∃ rest, (get_file_urls request today (some f) none ftype).2
        = ⟨f, f, 0, 100⟩ :: rest) := by
  refine ⟨rfl, rfl, ?_, ?_⟩
  · obtain ⟨extra, h⟩ := fetchLoop_trace_append request ftype (today - 7) today
      ((request (today - 7) today 0 100).numFound)
      ((request (today - 7) today 0 100).numFound) 100 0
      (parse_file_urls (request (today - 7) today 0 100).entries ftype)
      [⟨today - 7, today, 0, 100⟩] (by omega)
    exact ⟨extra, h⟩
  · obtain ⟨extra, h⟩ := fetchLoop_trace_append request ftype f f
      ((request f f 0 100).numFound)
      ((request f f 0 100).numFound) 100 0
      (parse_file_urls (request f f 0 100).entries ftype)
      [⟨f, f, 0, 100⟩] (by omega)
    exact ⟨extra, h⟩

/-! ## C10: a `to` date without a `from` date is discarded -/

/-- C10: when `from_date` is `None` but a `to_date` is supplied, the
supplied `to_date` is silently discarded — the resolved window is the
trailing 7 days ending today, identical to supplying no dates at all, and
the whole call behaves identically to the no-dates call (every request
carries `from = today - 7`, `to = today`). -/
theorem get_file_urls_discards_to_without_from
    (request : Int → Int → Nat → Nat → Response) (today t : Int) (ftype : List Char) :
    resolveDates today none (some t) = (today - 7, today) ∧
    resolveDates today none (some t) = resolveDates today none none ∧
    get_file_urls request today none (some t) ftype
      = get_file_urls request today none none ftype ∧
    (∃ rest, (get_file_urls request today none (some t) ftype).2
        = ⟨today - 7, today, 0, 100⟩ :: rest) := by
  refine ⟨rfl, rfl, rfl, ?_⟩
  obtain ⟨extra, h⟩ := fetchLoop_trace_append request ftype (today - 7) today
    ((request (today - 7) today 0 100).numFound)
    ((request (today - 7) today 0 100).numFound) 100 0
    (parse_file_urls (request (today - 7) today 0 100).entries ftype)
    [⟨today - 7, today, 0, 100⟩] (by omega)
  exact ⟨extra, h⟩

/-! ## Filesystem lemmas for the archive fetcher -/

/-- After writing `p`, reading `p` yields the written bytes. -/
lemma readFile_writeFile_same (fs : FS) (p : String) (bs : List Nat) :
    readFile (writeFile fs p bs) p = some bs := by
  unfold readFile writeFile
  have hnone : (fs.files.filter (fun q => q.1 ≠ p)).find? (fun q => q.1 = p) = none := by
    rw [List.find?_eq_none]
    intro x hx
    have := (List.mem_filter.mp hx).2
    simp only [decide_eq_true_eq] at this ⊢
    exact this
  rw [List.find?_append, hnone]
  simp

/-- Writing `p'` does not disturb reads of a different path `p`. -/
lemma readFile_writeFile_ne (fs : FS) (p' : String) (bs : List Nat) (p : String)
    (h : p ≠ p') :
    readFile (writeFile fs p' bs) p = readFile fs p := by
  unfold readFile writeFile
  rw [List.find?_append]
  have hlast : ([(p', bs)].find? (fun q => q.1 = p)) = none := by
    rw [List.find?_eq_none]
    intro x hx
    rw [List.mem_singleton] at hx
    subst hx
    simp only [decide_eq_true_eq]
    exact fun hpp => h hpp.symm
  rw [hlast]
  have hfilter : (fs.files.filter (fun q => q.1 ≠ p')).find? (fun q => q.1 = p)
      = fs.files.find? (fun q => q.1 = p) := by
    induction fs.files with
    | nil => rfl
    | cons a l ih =>
      by_cases ha : a.1 = p'
      · have hdrop : (decide (a.1 ≠ p')) = false := by simp [ha]
        rw [List.filter_cons, hdrop]
        have hskip : (decide (a.1 = p)) = false := by
          simp only [decide_eq_false_iff_not]
          intro hh
          exact h (hh ▸ ha)
        rw [if_neg (by simp), List.find?_cons_of_neg _ (by simp [hskip]), ih]
      · have hkeep : (decide (a.1 ≠ p')) = true := by simp [ha]
        rw [List.filter_cons, hkeep, if_pos rfl]
        by_cases hap : a.1 = p
        · rw [List.find?_cons_of_pos _ (by simp [hap]),
            List.find?_cons_of_pos _ (by simp [hap])]
        · rw [List.find?_cons_of_neg _ (by simp [hap]),
            List.find?_cons_of_neg _ (by simp [hap]), ih]
  rw [hfilter]
  cases fs.files.find? (fun q => q.1 = p) <;> rfl

/-- Extraction never touches the directory set. -/
lemma extractall_dirs (d : String) :
    ∀ (es : List ZipEntry) (fs : FS), (extractall fs d es).dirs = fs.dirs := by
  intro es
  induction es with
  | nil => intro fs; rfl
  | cons e rest ih => intro fs; rw [extractall, ih]; rfl

/-- Extraction leaves paths it does not write to unchanged. -/
lemma extractall_untouched (d : String) :
    ∀ (es : List ZipEntry) (fs : FS) (p : String),
    (∀ x ∈ es, osPathJoin d x.name ≠ p) →
    readFile (extractall fs d es) p = readFile fs p := by
  intro es
  induction es with
  | nil => intro fs p _; rfl
  | cons e rest ih =>
    intro fs p hp
    rw [extractall, ih _ _ (fun x hx => hp x (List.mem_cons_of_mem e hx)),
      readFile_writeFile_ne]
    exact fun hh => hp e (List.mem_cons_self e rest) hh.symm

/-- For names that are not absolute paths, `osPathJoin d` prepends a fixed
string, so it is injective in the name. -/
lemma osPathJoin_inj (d n1 n2 : String)
    (h1 : pyStartswith n1 "/" = false) (h2 : pyStartswith n2 "/" = false)
    (h : osPathJoin d n1 = osPathJoin d n2) : n1 = n2 := by
  unfold osPathJoin at h
  rw [h1, h2] at h
  simp only [Bool.false_eq_true, if_false] at h
  have cancel : ∀ (s a b : String), s ++ a = s ++ b → a = b := by
    intro s a b hab
    have : (s ++ a).data = (s ++ b).data := by rw [hab]
    rw [String.data_append, String.data_append] at this
    exact String.ext (List.append_cancel_left this)
  by_cases hd : (d = "" || pyEndswith d "/") = true
  · rw [if_pos hd, if_pos hd] at h
    exact cancel d n1 n2 h
  · rw [if_neg hd, if_neg hd] at h
    have h' : d ++ ("/" ++ n1) = d ++ ("/" ++ n2) := by
      rw [← String.append_assoc, ← String.append_assoc]
      exact h
    exact cancel "/" n1 n2 (cancel d _ _ h')

/-- Every archive member ends up, with its own bytes, at the joined path —
provided member names are distinct and none is an absolute path. -/
lemma extractall_reads (d : String) :
    ∀ (es : List ZipEntry) (fs : FS) (e : ZipEntry), e ∈ es →
    (∀ x ∈ es, pyStartswith x.name "/" = false) →
    (es.map ZipEntry.name).Nodup →
    readFile (extractall fs d es) (osPathJoin d e.name) = some e.contents := by
  intro es
  induction es with
  | nil => intro fs e he; cases he
  | cons a rest ih =>
    intro fs e he hslash hnodup
    rcases List.mem_cons.mp he with rfl | he'
    · rw [extractall]
      rw [extractall_untouched d rest _ _ ?_]
      · exact readFile_writeFile_same fs (osPathJoin d e.name) e.contents
      · intro x hx hjoin
        have hxname : x.name = e.name :=
          osPathJoin_inj d x.name e.name
            (hslash x (List.mem_cons_of_mem e hx))
            (hslash e (List.mem_cons_self e rest)) hjoin
        have : e.name ∉ rest.map ZipEntry.name := (List.nodup_cons.mp hnodup).1
        exact this (hxname ▸ List.mem_map_of_mem ZipEntry.name hx)
    · rw [extractall]
      exact ih _ e he' (fun x hx => hslash x (List.mem_cons_of_mem a hx))
        (List.nodup_cons.mp hnodup).2

/-! ## C7: successful download and extraction -/

/-- C7: on a success status and a non-empty archive,
`download_zipped_file` creates the destination directory if absent (it is
in the directory set afterwards), extracts every member of the archive
into it (each member is readable at the joined path with its own bytes,
given distinct, non-absolute member names), and returns exactly
`os.path.join(to_dir, firstMemberName)`. -/
theorem download_zipped_file_success (fetch : String → HttpResponse)
    (url to_dir : String) (fs : FS) (e0 : ZipEntry) (rest : List ZipEntry)
    (hstatus : (fetch url).statusCode < 400)
    (harch : (fetch url).archive = e0 :: rest) :
    (download_zipped_file fetch url to_dir fs).1 = .ok (osPathJoin to_dir e0.name) ∧
    to_dir ∈ (download_zipped_file fetch url to_dir fs).2.dirs ∧
    (download_zipped_file fetch url to_dir fs).2
      = extractall (mkdirIfAbsent fs to_dir) to_dir (e0 :: rest) ∧
    (∀ e ∈ e0 :: rest,
      (∀ x ∈ e0 :: rest, pyStartswith x.name "/" = false) →
      ((e0 :: rest).map ZipEntry.name).Nodup →
      readFile (download_zipped_file fetch url to_dir fs).2 (osPathJoin to_dir e.name)
        = some e.contents) := by
  have hrun : download_zipped_file fetch url to_dir fs
      = (.ok (osPathJoin to_dir e0.name),
         extractall (mkdirIfAbsent fs to_dir) to_dir (e0 :: rest)) := by
    unfold download_zipped_file
    rw [if_neg (by omega), harch]
  have hdir : to_dir ∈ (mkdirIfAbsent fs to_dir).dirs := by
    unfold mkdirIfAbsent
    by_cases hc : fs.dirs.contains to_dir
    · rw [if_pos hc]
      exact List.mem_of_elem_eq_true hc
    · rw [if_neg hc]
      simp
  refine ⟨by rw [hrun], ?_, by rw [hrun], ?_⟩
  · rw [hrun]
    show to_dir ∈ (extractall (mkdirIfAbsent fs to_dir) to_dir (e0 :: rest)).dirs
    rw [extractall_dirs]
    exact hdir
  · intro e he hslash hnodup
    rw [hrun]
    exact extractall_reads to_dir (e0 :: rest) _ e he hslash hnodup

/-- Witness for C7: downloading an archive whose sole member is `AB.xml`
(bytes `[65, 66]`) into directory `D` succeeds, returns exactly the path
`D/AB.xml`, the directory `D` exists afterwards, and `D/AB.xml` holds the
member's bytes. -/
theorem download_zipped_file_success_witness :
    (download_zipped_file (fun _ => ⟨200, [⟨"AB.xml", [65, 66]⟩]⟩) "u" "D"
        ⟨[], []⟩).1 = .ok "D/AB.xml" ∧
    "D" ∈ (download_zipped_file (fun _ => ⟨200, [⟨"AB.xml", [65, 66]⟩]⟩) "u" "D"
        ⟨[], []⟩).2.dirs ∧
    readFile (download_zipped_file (fun _ => ⟨200, [⟨"AB.xml", [65, 66]⟩]⟩) "u" "D"
        ⟨[], []⟩).2 "D/AB.xml" = some [65, 66] := by
  have h := download_zipped_file_success (fun _ => ⟨200, [⟨"AB.xml", [65, 66]⟩]⟩)
    "u" "D" ⟨[], []⟩ ⟨"AB.xml", [65, 66]⟩ [] (by decide) rfl
  have hjoin : osPathJoin "D" "AB.xml" = "D/AB.xml" := by decide
  refine ⟨?_, h.2.1, ?_⟩
  · rw [h.1, hjoin]
  · have := h.2.2.2 ⟨"AB.xml", [65, 66]⟩ (by decide) (by decide) (by decide)
    rwa [hjoin] at this

/-! ## C8: error status aborts before extraction -/

/-- C8: whenever the response status is a non-success status
(`raise_for_status` raises exactly for `400 ≤ status < 600`; outside that
range it does not raise and the code proceeds), `download_zipped_file`
surfaces the HTTP error with that status to the caller, and no extraction
was attempted: the filesystem's files are exactly as before the call (only
the destination directory may have been created, which happens before the
download). -/
theorem download_zipped_file_error_status (fetch : String → HttpResponse)
    (url to_dir : String) (fs : FS)
    (h : 400 ≤ (fetch url).statusCode) (h6 : (fetch url).statusCode < 600) :
    (download_zipped_file fetch url to_dir fs).1
      = .httpError (fetch url).statusCode ∧
    (download_zipped_file fetch url to_dir fs).2.files = fs.files ∧
    (download_zipped_file fetch url to_dir fs).2 = mkdirIfAbsent fs to_dir := by
  have hrun : download_zipped_file fetch url to_dir fs
      = (.httpError (fetch url).statusCode, mkdirIfAbsent fs to_dir) := by
    unfold download_zipped_file
    rw [if_pos ⟨h, h6⟩]
  have hfiles : (mkdirIfAbsent fs to_dir).files = fs.files := by
    unfold mkdirIfAbsent
    by_cases hc : fs.dirs.contains to_dir
    · rw [if_pos hc]
    · rw [if_neg hc]
  exact ⟨by rw [hrun], by rw [hrun]; exact hfiles, by rw [hrun]⟩

/-- Witness for C8: a 404 response yields the HTTP error outcome and
leaves the (one existing) file intact; nothing was extracted. -/
theorem download_zipped_file_error_status_witness :
    (download_zipped_file (fun _ => ⟨404, [⟨"AB.xml", [65]⟩]⟩) "u" "D"
        ⟨[], [("old.txt", [1])]⟩).1 = .httpError 404 ∧
    (download_zipped_file (fun _ => ⟨404, [⟨"AB.xml", [65]⟩]⟩) "u" "D"
        ⟨[], [("old.txt", [1])]⟩).2.files = [("old.txt", [1])] := by
  have h := download_zipped_file_error_status (fun _ => ⟨404, [⟨"AB.xml", [65]⟩]⟩)
    "u" "D" ⟨[], [("old.txt", [1])]⟩ (by decide) (by decide)
  exact ⟨h.1, h.2.1⟩

end Firds
